import Mathlib

/-!
Verification of the retrieval pipeline of the llm-Engineering-tool backend.

Python strings are modelled as `List Char`; Python `int` sizes as `Nat`
(a negative `chunk_size` behaves exactly like `0` in the source, since the
guard compares against a strictly positive left-hand side).
-/

namespace LlmTool

/-- Model of Python `str.split()` (split on whitespace runs, dropping empty
pieces): the accumulator holds the current word reversed. -/
def splitWordsAux : List Char → List Char → List (List Char)
  | [], cur => if cur = [] then [] else [cur.reverse]
  | c :: cs, cur =>
    if c.isWhitespace then
      if cur = [] then splitWordsAux cs []
      else cur.reverse :: splitWordsAux cs []
    else splitWordsAux cs (c :: cur)

/-- `text.split()` from `chunk_document_text` (src/functions/chunk_text/chunk_text.py). -/
def pySplit (s : List Char) : List (List Char) := splitWordsAux s []

/-- `" ".join(current_chunk)`: words joined by a single space. -/
def joinSpc : List (List Char) → List Char
  | [] => []
  | [w] => w
  | w :: ws => w ++ ' ' :: joinSpc ws

/-- The word loop of `chunk_document_text`: for each word, if
`current_length + len(word) + 1 > chunk_size` the current chunk is closed
(appended as `" ".join(current_chunk)`) and the word starts a fresh chunk;
the word is then always appended and `current_length += len(word) + 1`.
After the loop the last chunk is appended when non-empty. -/
def chunkLoop (chunk_size : Nat) :
    List (List Char) → List (List Char) → Nat → List (List Char) → List (List Char)
  | [], cur, _, acc => if cur = [] then acc else acc ++ [joinSpc cur]
  | w :: ws, cur, len, acc =>
    if chunk_size < len + w.length + 1 then
      chunkLoop chunk_size ws [w] (w.length + 1) (acc ++ [joinSpc cur])
    else
      chunkLoop chunk_size ws (cur ++ [w]) (len + w.length + 1) acc

/-- `chunk_document_text(text, chunk_size=200)` from
src/functions/chunk_text/chunk_text.py: greedy word packing over
`text.split()`, with the guard `current_length + len(word) + 1 > chunk_size`. -/
def chunk_document_text (text : List Char) (chunk_size : Nat := 200) : List (List Char) :=
  if text = [] then []
  else chunkLoop chunk_size (pySplit text) [] 0 []

/-- A list of words is well-formed when every word is non-empty and contains
no whitespace character — exactly what `str.split()` produces. -/
def goodWords (l : List (List Char)) : Prop :=
  ∀ w ∈ l, w ≠ [] ∧ ∀ c ∈ w, c.isWhitespace = false

/-- Total character weight of the pending chunk: the source's `current_length`,
which adds `len(word) + 1` for every word. -/
def chunkWeight (l : List (List Char)) : Nat := (l.map (fun w => w.length + 1)).sum

/-! ### Retrieval (src/routers/ask.py)

Embedding vectors are modelled as `List Int` (exact values in place of
float32; only comparisons of distances matter to the claims). -/

/-- Squared L2 distance between two vectors — the metric of
`faiss.IndexFlatL2` (which reports squared distances; taking the square root
would not change any ordering). -/
def sqDist (q v : List Int) : Int := ((q.zip v).map (fun p => (p.1 - p.2) ^ 2)).sum

/-- Insert an item into a list that is sorted by ascending `sqDist q`; an
earlier item goes in front of later items with the same distance, so the
overall sort is stable (ties keep insertion order). -/
def insertByDist (q : List Int) (x : Nat × List Int) :
    List (Nat × List Int) → List (Nat × List Int)
  | [] => [x]
  | y :: ys =>
    if sqDist q x.2 ≤ sqDist q y.2 then x :: y :: ys
    else y :: insertByDist q x ys

/-- Stable insertion sort of `(doc_id, embedding)` pairs by ascending squared
L2 distance to the query vector. -/
def sortByDist (q : List Int) : List (Nat × List Int) → List (Nat × List Int)
  | [] => []
  | x :: xs => insertByDist q x (sortByDist q xs)

/-- Modelled from the spec: `faiss.IndexFlatL2` search (library code, not in
src/) used by `load_faiss_index`/`index.search` in src/routers/ask.py —
"Distance metric: Euclidean (L2) … Rank ascending by distance (smallest
distance = most relevant) … ties broken by original chunk insertion order
(stable)". Exact nearest-neighbour search: the corpus entries ranked by
ascending squared L2 distance to the query, truncated to `top_k`. The `-1`
padding faiss emits when `top_k` exceeds the corpus size is modelled by
truncation, matching the `idx != -1` filter at the call site. -/
def faissTopK (q : List Int) (items : List (Nat × List Int)) (top_k : Nat) :
    List (Nat × List Int) :=
  (sortByDist q items).take top_k

/-- Row of the `api_list` table (src/models/api_list.py); timestamp columns
are omitted (wall-clock values, unused by the routed logic modelled here). -/
structure ApiEntry where
  id : Nat
  main_table_user_id : Nat
  api_key : String
  document_id : Option Nat
  instructions : Option String
  deriving DecidableEq

/-- Row of the `documents` table (src/models/documents.py), as used by
src/routers/ask.py and src/store_data/store_data.py. -/
structure DocumentRow where
  document_id : Nat
  api_id : Nat
  chunk_text : String
  deriving DecidableEq

/-- Row of the `embeddings` table (src/models/embeddings.py); the raw-bytes
float32 column is modelled as the vector it encodes. -/
structure EmbeddingRow where
  document_id : Nat
  embedding : List Int
  deriving DecidableEq

/-- The relational store visible to the routed handlers. -/
structure Db where
  apis : List ApiEntry
  documents : List DocumentRow
  embeddings : List EmbeddingRow
  deriving DecidableEq

/-- A FastAPI `HTTPException(status_code=…, detail=…)`. -/
structure HttpError where
  status_code : Nat
  detail : String
  deriving DecidableEq

/-- The success payload of `/ask/`: `{"success": True, "answer": …,
"context": …}`. -/
structure AskResponse where
  success : Bool
  answer : String
  context : List String
  deriving DecidableEq

/-- A Python value as it reaches `generate_prompt`: `None`, a string, or a
list of strings. -/
inductive PyVal where
  | vnone
  | vstr (s : String)
  | vlist (l : List String)
  deriving DecidableEq

/-- Python truthiness of the values `generate_prompt` branches on. -/
def PyVal.truthy : PyVal → Bool
  | .vnone => false
  | .vstr s => s != ""
  | .vlist l => !l.isEmpty

/-- f-string interpolation of a `PyVal` (for lists, Python's `repr`; quote
escaping is not modelled, which is exact for quote-free strings). -/
def PyVal.render : PyVal → String
  | .vnone => "None"
  | .vstr s => s
  | .vlist l => "[" ++ String.intercalate ", " (l.map (fun s => "'" ++ s ++ "'")) ++ "]"

/-- The common tail of every prompt produced by `generate_prompt`. -/
def promptTail (question : PyVal) : String :=
  "\n\n        Based on the provided information above, answer the following question:\n        "
    ++ question.render ++ "\n        "

/-- `generate_prompt(question, prompt_context=None, instructions=None,
image_data=None, document_data=None)` from
src/prompt_generation/prompt_generation.py: an if/elif chain selecting ONE
f-string template by the truthiness of `image_data`, `document_data`,
`prompt_context`, `instructions`, in that order. -/
def generate_prompt (question : PyVal) (prompt_context : PyVal := .vnone)
    (instructions : PyVal := .vnone) (image_data : PyVal := .vnone)
    (document_data : PyVal := .vnone) : String :=
  if image_data.truthy && document_data.truthy then
    "\n        Image Data\n        " ++ image_data.render
      ++ "\n\n        Document Data\n        " ++ document_data.render
      ++ promptTail question
  else if image_data.truthy then
    "\n        Image Data\n        " ++ image_data.render ++ promptTail question
  else if document_data.truthy then
    "\n        Document Data\n        " ++ document_data.render ++ promptTail question
  else if prompt_context.truthy then
    "\n        Here is the context: " ++ prompt_context.render ++ promptTail question
  else if instructions.truthy then
    "\n        " ++ instructions.render ++ promptTail question
  else
    "\n" ++ promptTail question

/-- Substring test (`needle in hay` for Python strings). -/
def strContains (hay needle : String) : Bool :=
  hay.toList.tails.any (fun t => needle.toList.isPrefixOf t)

/-- The exact `generate_prompt` call made by `ask_question`
(src/routers/ask.py): `generate_prompt(api_key, question, prompt_context,
instructions)` — four POSITIONAL arguments, so `api_key` lands in the
`question` slot, `question` in `prompt_context`, the retrieved snippet list
in `instructions`, and the tenant instructions in `image_data`. -/
def askPrompt (api_key question : String) (prompt_context : List String)
    (instructions : Option String) : String :=
  generate_prompt (.vstr api_key) (.vstr question) (.vlist prompt_context)
    (match instructions with | none => PyVal.vnone | some s => PyVal.vstr s)
    .vnone

/-- `ask_question(api_key, question)` from src/routers/ask.py. The per-request
`np.random.rand` draw at the line `question_embedding = np.random.rand(…)`
("Placeholder for embedding") is passed in explicitly as `rand`; the reply of
the local model (`query_local_model`, an external HTTP call) is abstracted as
`llm`. Each document's embedding is looked up by
`Embeddings.document_id == document.api_id` and the FAISS search keeps
`top_k = 3` hits, each mapped back through `id_map` and re-queried (skipping
falsy ids, `if most_similar_doc_id:`). -/
def ask_question (llm : String → String) (db : Db) (api_key question : String)
    (rand : List Int) : Except HttpError AskResponse :=
  match db.apis.find? (fun a => a.api_key == api_key) with
  | none => .error ⟨403, "Invalid or expired API key."⟩
  | some api_entry =>
    let documents := db.documents.filter (fun d => d.api_id == api_entry.id)
    if documents = [] then
      .error ⟨404, "No documents found for the given API key."⟩
    else
      let embeddings := documents.filterMap (fun d =>
        (db.embeddings.find? (fun e => e.document_id == d.api_id)).map
          (fun e => (d.document_id, e.embedding)))
      if embeddings = [] then
        .error ⟨404, "No embeddings found for the associated documents."⟩
      else
        let question_embedding := rand
        let hits := faissTopK question_embedding embeddings 3
        let most_similar_documents := hits.filterMap (fun h =>
          if h.1 ≠ 0 then db.documents.find? (fun d => d.document_id == h.1)
          else none)
        if most_similar_documents = [] then
          .error ⟨500, "Could not retrieve the most similar document."⟩
        else
          let prompt_context := most_similar_documents.map (fun d => d.chunk_text)
          let prompt := askPrompt api_key question prompt_context api_entry.instructions
          .ok ⟨true, llm prompt, prompt_context⟩

/-- A store with one tenant credential `"k"` and two of its documents, whose
(single) embedding row is keyed the way `store_user_data` writes it:
`document_id = api_entry.id`. -/
def db0 : Db :=
  { apis := [⟨1, 7, "k", none, none⟩]
    documents := [⟨1, 1, "one"⟩, ⟨2, 1, "two"⟩]
    embeddings := [⟨1, [3, 4]⟩] }

/-- A store with one tenant credential `"k"` and zero documents. -/
def db1 : Db := { apis := [⟨1, 7, "k", none, none⟩], documents := [], embeddings := [] }

/-! ### Ingestion (src/store_data/store_data.py)

In `store_user_data` every `db.add(...)` is immediately followed by
`db.commit()` (one commit per document row and one per embedding row), so the
committed database advances row by row and the `db.rollback()` in the
except-handler finds nothing pending to discard. The model therefore threads
the committed `Db` directly. `model.encode` (SentenceTransformer, external) is
abstracted as a fallible `encode`; `none` models an exception raised while
embedding that chunk. Autoincrement ids are assigned as `row count + 1` at
insertion, and `db.refresh` reads them back. -/

/-- The embedding loop of `store_user_data`: for each chunk, compute its
embedding and commit an `Embeddings` row whose `document_id` is
`document_entry.api_id` (sic — the api id, as in the source). An encoding
failure raises: the already-committed rows stay, `False` is returned. -/
def embedChunks (encode : String → Option (List Int)) (api_id : Nat) :
    List (List Char) → Db → Db × Bool
  | [], s => (s, true)
  | c :: cs, s =>
    match encode (String.mk c) with
    | none => (s, false)
    | some v =>
      embedChunks encode api_id cs
        { s with embeddings := s.embeddings ++ [⟨api_id, v⟩] }

/-- `store_user_data(user_id, api_key, document_text, instructions)` from
src/store_data/store_data.py: chunk the text (default size 200), commit the
`APIList` entry (`create_api_entry` commits internally), commit one
`Documents` row per chunk, link `api_entry.document_id` to the last document
row and commit, then commit one `Embeddings` row per chunk. Returns the
committed database and whether the function returned normally (`False` =
`RuntimeError` raised after `db.rollback()`, which discards nothing because
every row was already committed). With zero chunks the loop variable
`document_entry` is unbound and reading `.document_id` raises, again after
the api entry was committed. -/
def store_user_data (encode : String → Option (List Int)) (st : Db)
    (user_id : Nat) (api_key : String) (document_text : List Char)
    (instructions : Option String) : Db × Bool :=
  let chunk_text := chunk_document_text document_text 200
  let api_id := st.apis.length + 1
  let st1 : Db :=
    { st with apis := st.apis ++ [⟨api_id, user_id, api_key, none, instructions⟩] }
  let st2 := chunk_text.foldl (fun s c =>
    { s with documents :=
        s.documents ++ [⟨s.documents.length + 1, api_id, String.mk c⟩] }) st1
  if chunk_text = [] then (st1, false)
  else
    let last_doc_id := st2.documents.length
    let st3 : Db :=
      { st2 with apis := st2.apis.map (fun a =>
          if a.id = api_id then { a with document_id := some last_doc_id } else a) }
    embedChunks encode api_id chunk_text st3

/-! ### Chat streaming (src/routers/chat.py, `stream_response`)

The async generator is modelled as a fold over the finite list of fragments
produced by `generate_response_streaming`. `request.is_disconnected()` is an
oracle `disc : Nat → Bool` indexed by how many times it has been awaited;
`count_tokens` (tiktoken, external) is an abstract function. Wall-clock
fields (latency) and the generator-exception path are outside the model; the
web-search pre-phase is not part of the cited loop. -/

/-- A fragment of the `generate_response_streaming` stream: a metadata
fragment carrying optional `prompt_tokens`/`completion_tokens`, or a
content/reasoning fragment carrying text (both are accumulated into
`full_answer` by the loop's else-branch). -/
inductive StreamChunk where
  | metadata (prompt_tokens completion_tokens : Option Nat)
  | content (data : String)
  | reasoning (data : String)
  deriving DecidableEq

/-- `json.dumps(chunk) + "\n"` (rendering modelled loosely; no claim inspects
the serialized text). -/
def serializeChunk : StreamChunk → String
  | .metadata pt ct =>
    "\x7b\"type\": \"metadata\", \"data\": \x7b\"prompt_tokens\": "
      ++ (match pt with | none => "null" | some n => toString n)
      ++ ", \"completion_tokens\": "
      ++ (match ct with | none => "null" | some n => toString n) ++ "\x7d\x7d\n"
  | .content d => "\x7b\"type\": \"content\", \"data\": \"" ++ d ++ "\"\x7d\n"
  | .reasoning d => "\x7b\"type\": \"reasoning\", \"data\": \"" ++ d ++ "\"\x7d\n"

/-- The text a fragment contributes to `full_answer`. -/
def chunkData : StreamChunk → String
  | .metadata _ _ => ""
  | .content d => d
  | .reasoning d => d

/-- Concatenated `full_answer` contribution of a fragment list. -/
def answersData : List StreamChunk → String
  | [] => ""
  | c :: cs => chunkData c ++ answersData cs

/-- The `prompt_tokens` a fragment contributes to `input_tokens`. -/
def chunkPromptTokens : StreamChunk → Nat
  | .metadata pt _ => pt.getD 0
  | _ => 0

/-- The `completion_tokens` a fragment contributes to `output_tokens`. -/
def chunkCompletionTokens : StreamChunk → Nat
  | .metadata _ ct => ct.getD 0
  | _ => 0

/-- Total `prompt_tokens` of a fragment list. -/
def promptTokensData : List StreamChunk → Nat
  | [] => 0
  | c :: cs => chunkPromptTokens c + promptTokensData cs

/-- Total `completion_tokens` of a fragment list. -/
def completionTokensData : List StreamChunk → Nat
  | [] => 0
  | c :: cs => chunkCompletionTokens c + completionTokensData cs

/-- The local state of `stream_response`: `full_answer`, token accumulators,
the sticky `client_disconnected_during_streaming` flag, the fragments yielded
to the client so far, and the number of `is_disconnected()` awaits made. -/
structure StreamState where
  fullAnswer : String
  inputTokens : Nat
  outputTokens : Nat
  disconnected : Bool
  yielded : List String
  calls : Nat

/-- The guarded yield of the loop body: if the flag is set nothing happens;
otherwise `is_disconnected()` is awaited once more and the fragment is
yielded only when it reports the client still connected. -/
def guardedYield (disc : Nat → Bool) (out : String) (s : StreamState) : StreamState :=
  if s.disconnected then s
  else if disc s.calls then { s with calls := s.calls + 1, disconnected := true }
  else { s with calls := s.calls + 1, yielded := s.yielded ++ [out] }

/-- One iteration of `async for chunk in generate_response_streaming(...)`:
the loop-top probe `if not client_disconnected_during_streaming and await
request.is_disconnected()` (short-circuit: no await once the flag is set),
then the metadata/else branch with its guarded yield. -/
def processChunk (disc : Nat → Bool) (s : StreamState) (c : StreamChunk) : StreamState :=
  let s1 := if s.disconnected then s
    else { s with calls := s.calls + 1, disconnected := disc s.calls }
  match c with
  | .metadata pt ct =>
    guardedYield disc (serializeChunk c)
      { s1 with inputTokens := s1.inputTokens + pt.getD 0,
                outputTokens := s1.outputTokens + ct.getD 0 }
  | .content d =>
    guardedYield disc (serializeChunk c) { s1 with fullAnswer := s1.fullAnswer ++ d }
  | .reasoning d =>
    guardedYield disc (serializeChunk c) { s1 with fullAnswer := s1.fullAnswer ++ d }

/-- The whole consumption loop. -/
def processChunks (disc : Nat → Bool) (chunks : List StreamChunk)
    (s : StreamState) : StreamState :=
  chunks.foldl (processChunk disc) s

/-- State at generator entry. -/
def initStreamState : StreamState := ⟨"", 0, 0, false, [], 0⟩

/-- The Chat Session Record scheduled for persistence by the background task. -/
structure ChatRecord where
  question : String
  answer : String
  input_tokens : Nat
  output_tokens : Nat
  status : Nat

/-- The `finally` block of `stream_response` (error-free generator): choose
`final_answer_to_log` and the status code — disconnected with content → 200,
disconnected without content → 503 and a fixed audit message, otherwise
200/204 — and fill the token counts with their fallbacks. -/
def mkRecord (count_tokens : String → Nat) (question : String)
    (s : StreamState) : ChatRecord :=
  let status : Nat :=
    if s.disconnected then (if s.fullAnswer = "" then 503 else 200)
    else if s.fullAnswer = "" then 204 else 200
  { question := question
    answer :=
      if s.disconnected then
        if s.fullAnswer = "" then
          "Response generation was in progress when client disconnected; no primary content was generated."
        else s.fullAnswer
      else if s.fullAnswer = "" then "No content was generated by the model."
      else s.fullAnswer
    input_tokens := if s.inputTokens ≠ 0 then s.inputTokens else count_tokens question
    output_tokens :=
      if status = 200 ∧ s.outputTokens = 0 then count_tokens s.fullAnswer + 300
      else s.outputTokens
    status := status }

/-- `stream_response` end to end: the fragments delivered to the client and
the Chat Session Record handed to `background_tasks.add_task` (the `finally`
block always schedules it). -/
def stream_response (disc : Nat → Bool) (count_tokens : String → Nat)
    (question : String) (chunks : List StreamChunk) : List String × ChatRecord :=
  let s := processChunks disc chunks initStreamState
  (s.yielded, mkRecord count_tokens question s)

lemma splitWordsAux_good (s : List Char) :
    ∀ cur : List Char, (∀ c ∈ cur, c.isWhitespace = false) →
      goodWords (splitWordsAux s cur) := by
  induction s with
  | nil =>
    intro cur hc w hw
    simp only [splitWordsAux] at hw
    split at hw
    · simp at hw
    · next hne =>
      simp only [List.mem_singleton] at hw
      subst hw
      refine ⟨by simpa using hne, ?_⟩
      intro c hcmem
      exact hc c (List.mem_reverse.mp hcmem)
  | cons c cs ih =>
    intro cur hc w hw
    simp only [splitWordsAux] at hw
    by_cases hws : c.isWhitespace = true
    · rw [if_pos hws] at hw
      split at hw
      · exact ih [] (by simp) w hw
      · next hne =>
        rcases List.mem_cons.mp hw with h | h
        · subst h
          refine ⟨by simpa using hne, ?_⟩
          intro x hx
          exact hc x (List.mem_reverse.mp hx)
        · exact ih [] (by simp) w h
    · rw [if_neg hws] at hw
      refine ih (c :: cur) ?_ w hw
      intro x hx
      rcases List.mem_cons.mp hx with h | h
      · subst h; simpa using hws
      · exact hc x h

lemma pySplit_good (s : List Char) : goodWords (pySplit s) :=
  splitWordsAux_good s [] (by simp)

lemma splitWordsAux_append_nonws (w : List Char)
    (hw : ∀ c ∈ w, c.isWhitespace = false) (cs cur : List Char) :
    splitWordsAux (w ++ cs) cur = splitWordsAux cs (w.reverse ++ cur) := by
  induction w generalizing cur with
  | nil => simp
  | cons a w' ih =>
    have ha : a.isWhitespace = false := hw a (List.mem_cons_self a w')
    simp only [List.cons_append, splitWordsAux, ha, Bool.false_eq_true, if_false,
      List.append_eq]
    rw [ih (fun c hc => hw c (List.mem_cons_of_mem a hc)) (a :: cur)]
    simp [List.append_assoc]

lemma pySplit_joinSpc (g : List (List Char)) (hg : goodWords g) :
    pySplit (joinSpc g) = g := by
  induction g with
  | nil => simp [pySplit, joinSpc, splitWordsAux]
  | cons w g' ih =>
    obtain ⟨hwne, hwws⟩ := hg w (List.mem_cons_self w g')
    have hg' : goodWords g' := fun x hx => hg x (List.mem_cons_of_mem w hx)
    cases g' with
    | nil =>
      show pySplit (joinSpc [w]) = [w]
      have hj : joinSpc [w] = w := rfl
      rw [hj]
      unfold pySplit
      have h1 := splitWordsAux_append_nonws w hwws [] []
      simp only [List.append_nil] at h1
      rw [h1]
      simp [splitWordsAux, hwne]
    | cons w2 g'' =>
      have hjoin : joinSpc (w :: w2 :: g'') = w ++ ' ' :: joinSpc (w2 :: g'') := rfl
      unfold pySplit
      rw [hjoin, splitWordsAux_append_nonws w hwws _ []]
      have hsp : (' ' : Char).isWhitespace = true := by decide
      simp only [splitWordsAux, hsp, if_true, List.append_nil]
      rw [if_neg (by simpa using hwne)]
      rw [List.reverse_reverse]
      exact congrArg (w :: ·) (ih hg')

lemma chunkLoop_words (chunk_size : Nat) (ws : List (List Char)) :
    ∀ (cur : List (List Char)) (len : Nat) (acc : List (List Char)),
      goodWords cur → goodWords ws →
      ((chunkLoop chunk_size ws cur len acc).map pySplit).flatten
        = (acc.map pySplit).flatten ++ cur ++ ws := by
  induction ws with
  | nil =>
    intro cur len acc hcur _
    simp only [chunkLoop]
    split
    · next h => subst h; simp
    · simp [pySplit_joinSpc cur hcur]
  | cons w ws' ih =>
    intro cur len acc hcur hws
    have hw : w ≠ [] ∧ ∀ c ∈ w, c.isWhitespace = false := hws w (List.mem_cons_self w ws')
    have hws' : goodWords ws' := fun x hx => hws x (List.mem_cons_of_mem w hx)
    simp only [chunkLoop]
    split
    · rw [ih [w] (w.length + 1) (acc ++ [joinSpc cur])
        (by intro x hx; simp only [List.mem_singleton] at hx; subst hx; exact hw) hws']
      simp [pySplit_joinSpc cur hcur, List.append_assoc]
    · rw [ih (cur ++ [w]) (len + w.length + 1) acc
        (by intro x hx
            rcases List.mem_append.mp hx with h | h
            · exact hcur x h
            · simp only [List.mem_singleton] at h; subst h; exact hw) hws']
      simp [List.append_assoc]

lemma joinSpc_length (l : List (List Char)) (h : l ≠ []) :
    (joinSpc l).length + 1 = chunkWeight l := by
  induction l with
  | nil => exact absurd rfl h
  | cons w t ih =>
    cases t with
    | nil => simp [joinSpc, chunkWeight]
    | cons w2 t' =>
      have hj : joinSpc (w :: w2 :: t') = w ++ ' ' :: joinSpc (w2 :: t') := rfl
      have ih' := ih (by simp)
      rw [hj]
      simp only [chunkWeight, List.map_cons, List.sum_cons, List.length_append,
        List.length_cons] at *
      omega

lemma emitted_chunk_ok (chunk_size : Nat) (W cur : List (List Char))
    (hinv : cur.length ≤ 1 ∨ chunkWeight cur ≤ chunk_size)
    (hmem : ∀ w ∈ cur, w ∈ W) :
    (joinSpc cur).length ≤ chunk_size ∨
      (joinSpc cur ∈ W ∧ chunk_size < (joinSpc cur).length) := by
  match cur with
  | [] => left; simp [joinSpc]
  | [w] =>
    by_cases h : (joinSpc [w]).length ≤ chunk_size
    · left; exact h
    · right
      refine ⟨?_, by omega⟩
      have hj : joinSpc [w] = w := rfl
      rw [hj]
      exact hmem w (by simp)
  | w1 :: w2 :: t =>
    left
    rcases hinv with h | h
    · simp at h
    · have hj := joinSpc_length (w1 :: w2 :: t) (by simp)
      omega

lemma chunkLoop_size_bound (chunk_size : Nat) (W : List (List Char))
    (ws : List (List Char)) :
    ∀ (cur : List (List Char)) (acc : List (List Char)),
      (cur.length ≤ 1 ∨ chunkWeight cur ≤ chunk_size) →
      (∀ w ∈ cur, w ∈ W) → (∀ w ∈ ws, w ∈ W) →
      (∀ c ∈ acc, c.length ≤ chunk_size ∨ (c ∈ W ∧ chunk_size < c.length)) →
      ∀ c ∈ chunkLoop chunk_size ws cur (chunkWeight cur) acc,
        c.length ≤ chunk_size ∨ (c ∈ W ∧ chunk_size < c.length) := by
  induction ws with
  | nil =>
    intro cur acc hinv hcur _ hacc c hc
    simp only [chunkLoop] at hc
    split at hc
    · exact hacc c hc
    · rcases List.mem_append.mp hc with h | h
      · exact hacc c h
      · simp only [List.mem_singleton] at h
        subst h
        exact emitted_chunk_ok chunk_size W cur hinv hcur
  | cons w ws' ih =>
    intro cur acc hinv hcur hws hacc c hc
    have hwW : w ∈ W := hws w (List.mem_cons_self w ws')
    have hws' : ∀ x ∈ ws', x ∈ W := fun x hx => hws x (List.mem_cons_of_mem w hx)
    simp only [chunkLoop] at hc
    split at hc
    · have hlen : w.length + 1 = chunkWeight [w] := by simp [chunkWeight]
      rw [hlen] at hc
      refine ih [w] (acc ++ [joinSpc cur]) (Or.inl (by simp))
        (by intro x hx; simp only [List.mem_singleton] at hx; subst hx; exact hwW)
        hws' ?_ c hc
      intro x hx
      rcases List.mem_append.mp hx with h | h
      · exact hacc x h
      · simp only [List.mem_singleton] at h
        subst h
        exact emitted_chunk_ok chunk_size W cur hinv hcur
    · next hguard =>
      have hlen : chunkWeight cur + w.length + 1 = chunkWeight (cur ++ [w]) := by
        simp [chunkWeight]
        omega
      rw [hlen] at hc
      refine ih (cur ++ [w]) acc (Or.inr (by rw [← hlen]; omega))
        (by intro x hx
            rcases List.mem_append.mp hx with h | h
            · exact hcur x h
            · simp only [List.mem_singleton] at h; subst h; exact hwW)
        hws' hacc c hc

lemma joinSpc_ne_nil (l : List (List Char)) (hne : l ≠ [])
    (h : ∀ w ∈ l, w ≠ []) : joinSpc l ≠ [] := by
  match l with
  | [w] => exact h w (by simp)
  | w :: w2 :: t =>
    have hj : joinSpc (w :: w2 :: t) = w ++ ' ' :: joinSpc (w2 :: t) := rfl
    rw [hj]
    simp

lemma chunkLoop_acc_prefix (chunk_size : Nat) (ws : List (List Char)) :
    ∀ (cur : List (List Char)) (len : Nat) (acc : List (List Char)),
      chunkLoop chunk_size ws cur len acc = acc ++ chunkLoop chunk_size ws cur len [] := by
  induction ws with
  | nil =>
    intro cur len acc
    simp only [chunkLoop]
    split <;> simp
  | cons w ws' ih =>
    intro cur len acc
    simp only [chunkLoop]
    split
    · rw [ih [w] (w.length + 1) (acc ++ [joinSpc cur]),
        ih [w] (w.length + 1) ([] ++ [joinSpc cur])]
      simp
    · exact ih (cur ++ [w]) (len + w.length + 1) acc

lemma chunkLoop_ne_nil_of_cur (chunk_size : Nat) (ws : List (List Char)) :
    ∀ (cur : List (List Char)) (len : Nat) (acc : List (List Char)),
      cur ≠ [] → (∀ w ∈ cur, w ≠ []) → (∀ w ∈ ws, w ≠ []) →
      (∀ c ∈ acc, c ≠ []) →
      ∀ c ∈ chunkLoop chunk_size ws cur len acc, c ≠ [] := by
  induction ws with
  | nil =>
    intro cur len acc hne hcur _ hacc c hc
    simp only [chunkLoop] at hc
    rw [if_neg hne] at hc
    rcases List.mem_append.mp hc with h | h
    · exact hacc c h
    · simp only [List.mem_singleton] at h
      subst h
      exact joinSpc_ne_nil cur hne hcur
  | cons w ws' ih =>
    intro cur len acc hne hcur hws hacc c hc
    have hwne : w ≠ [] := hws w (List.mem_cons_self w ws')
    have hws' : ∀ x ∈ ws', x ≠ [] := fun x hx => hws x (List.mem_cons_of_mem w hx)
    simp only [chunkLoop] at hc
    split at hc
    · refine ih [w] (w.length + 1) (acc ++ [joinSpc cur]) (by simp)
        (by intro x hx; simp only [List.mem_singleton] at hx; subst hx; exact hwne)
        hws' ?_ c hc
      intro x hx
      rcases List.mem_append.mp hx with h | h
      · exact hacc x h
      · simp only [List.mem_singleton] at h
        subst h
        exact joinSpc_ne_nil cur hne hcur
    · exact ih (cur ++ [w]) (len + w.length + 1) acc (by simp)
        (by intro x hx
            rcases List.mem_append.mp hx with h | h
            · exact hcur x h
            · simp only [List.mem_singleton] at h; subst h; exact hwne)
        hws' hacc c hc

lemma mem_insertByDist (q : List Int) (x : Nat × List Int)
    (l : List (Nat × List Int)) (z : Nat × List Int) :
    z ∈ insertByDist q x l ↔ z = x ∨ z ∈ l := by
  induction l with
  | nil => simp [insertByDist]
  | cons y ys ih =>
    simp only [insertByDist]
    split
    · simp [List.mem_cons]
    · simp only [List.mem_cons, ih]
      tauto

lemma pairwise_insertByDist (q : List Int) (x : Nat × List Int)
    (l : List (Nat × List Int))
    (h : l.Pairwise (fun a b => sqDist q a.2 ≤ sqDist q b.2)) :
    (insertByDist q x l).Pairwise (fun a b => sqDist q a.2 ≤ sqDist q b.2) := by
  induction l with
  | nil => simp [insertByDist]
  | cons y ys ih =>
    rw [List.pairwise_cons] at h
    obtain ⟨hy, hys⟩ := h
    simp only [insertByDist]
    split
    · next hle =>
      refine List.pairwise_cons.mpr ⟨?_, List.pairwise_cons.mpr ⟨hy, hys⟩⟩
      intro z hz
      rcases List.mem_cons.mp hz with h | h
      · subst h; exact hle
      · exact le_trans hle (hy z h)
    · next hgt =>
      refine List.pairwise_cons.mpr ⟨?_, ih hys⟩
      intro z hz
      rcases (mem_insertByDist q x ys z).mp hz with h | h
      · subst h; omega
      · exact hy z h

lemma mem_sortByDist (q : List Int) (l : List (Nat × List Int))
    (z : Nat × List Int) : z ∈ sortByDist q l ↔ z ∈ l := by
  induction l with
  | nil => simp [sortByDist]
  | cons x xs ih =>
    simp only [sortByDist, mem_insertByDist, ih, List.mem_cons]

lemma pairwise_sortByDist (q : List Int) (l : List (Nat × List Int)) :
    (sortByDist q l).Pairwise (fun a b => sqDist q a.2 ≤ sqDist q b.2) := by
  induction l with
  | nil => simp [sortByDist]
  | cons x xs ih => exact pairwise_insertByDist q x _ ih

lemma insertByDist_ne_nil (q : List Int) (x : Nat × List Int)
    (l : List (Nat × List Int)) : insertByDist q x l ≠ [] := by
  cases l with
  | nil => simp [insertByDist]
  | cons y ys =>
    simp only [insertByDist]
    split <;> simp

end LlmTool

namespace LlmTool

/-- C1 counterexample: on `"alpha beta gamma delta"` with `max_chunk_size = 10`
the implementation does NOT return `["alpha beta", "gamma delta"]`. -/
theorem c1_counterexample :
    chunk_document_text "alpha beta gamma delta".toList 10 ≠
      ["alpha beta".toList, "gamma delta".toList] := by decide

/-- C1 (amended): `chunk_document_text("alpha beta gamma delta", 10)` returns
`["alpha", "beta", "gamma", "delta"]`: the running length counts one separator
after every word, so `"alpha beta"` is costed at 11 > 10 and each word closes
the chunk before it. -/
theorem c1_amended :
    chunk_document_text "alpha beta gamma delta".toList 10 =
      ["alpha".toList, "beta".toList, "gamma".toList, "delta".toList] := by decide

/-- C5: chunk reconstruction round-trip — concatenating the whitespace-split
word sequences of all chunks returned by `chunk_document_text`, in order,
equals the whitespace-split word sequence of the original text, for every
text and every `max_chunk_size`. -/
theorem c5_chunk_reconstruction (text : List Char) (chunk_size : Nat) :
    ((chunk_document_text text chunk_size).map pySplit).flatten = pySplit text := by
  unfold chunk_document_text
  split
  · next h => subst h; simp [pySplit, splitWordsAux]
  · rw [chunkLoop_words chunk_size (pySplit text) [] 0 []
      (by intro w hw; simp at hw) (pySplit_good text)]
    simp

/-- C4: chunk size bound — for `max_chunk_size ≥ 1`, every chunk returned by
`chunk_document_text` has character length ≤ `max_chunk_size`, except a chunk
that is a single whitespace-delimited word of the text whose own length
exceeds `max_chunk_size` (emitted whole, never split). -/
theorem c4_chunk_size_bound (text : List Char) (chunk_size : Nat)
    (_hpos : 1 ≤ chunk_size) :
    ∀ c ∈ chunk_document_text text chunk_size,
      c.length ≤ chunk_size ∨ (c ∈ pySplit text ∧ chunk_size < c.length) := by
  unfold chunk_document_text
  split
  · simp
  · have h0 : (0 : Nat) = chunkWeight [] := by simp [chunkWeight]
    rw [h0]
    exact chunkLoop_size_bound chunk_size (pySplit text) (pySplit text) [] []
      (Or.inl (by simp)) (by simp) (fun w hw => hw) (by simp)

/-- Witness for C4 at `text = "ab cd efghij"`, `max_chunk_size = 5`: the chunk
`"efghij"` is a single over-long word of the text. -/
theorem c4_witness :
    "efghij".toList.length ≤ 5 ∨
      ("efghij".toList ∈ pySplit "ab cd efghij".toList ∧ 5 < "efghij".toList.length) :=
  c4_chunk_size_bound "ab cd efghij".toList 5 (by decide) "efghij".toList (by decide)

/-- C10: for non-empty text, `chunk_document_text` emits an empty chunk iff the
first whitespace-delimited word `w` of the text satisfies
`len(w) + 1 > max_chunk_size`, and an empty chunk can only sit at position 0. -/
theorem c10_empty_chunk (text : List Char) (chunk_size : Nat) (htext : text ≠ []) :
    (([] ∈ chunk_document_text text chunk_size) ↔
      (∃ w, (pySplit text).head? = some w ∧ chunk_size < w.length + 1))
    ∧ ∀ (i : Nat) (h : i < (chunk_document_text text chunk_size).length),
        (chunk_document_text text chunk_size).get ⟨i, h⟩ = [] → i = 0 := by
  have hgood := pySplit_good text
  unfold chunk_document_text
  rw [if_neg htext]
  cases hw : pySplit text with
  | nil =>
    constructor
    · simp [chunkLoop, hw]
    · intro i h
      simp [chunkLoop] at h
  | cons w ws =>
    rw [hw] at hgood
    have hwne : w ≠ [] := (hgood w (List.mem_cons_self w ws)).1
    have hwsne : ∀ x ∈ ws, x ≠ [] := fun x hx => (hgood x (List.mem_cons_of_mem w hx)).1
    simp only [chunkLoop]
    by_cases hg : chunk_size < 0 + w.length + 1
    · rw [if_pos hg]
      have hrw : chunkLoop chunk_size ws [w] (w.length + 1) ([] ++ [joinSpc []])
          = [] :: chunkLoop chunk_size ws [w] (w.length + 1) [] := by
        rw [show ([] ++ [joinSpc []] : List (List Char)) = [joinSpc []] by simp,
          chunkLoop_acc_prefix chunk_size ws [w] (w.length + 1) [joinSpc []]]
        rfl
      rw [hrw]
      have htail : ∀ c ∈ chunkLoop chunk_size ws [w] (w.length + 1) [], c ≠ [] :=
        chunkLoop_ne_nil_of_cur chunk_size ws [w] (w.length + 1) [] (by simp)
          (by intro x hx; simp only [List.mem_singleton] at hx; subst hx; exact hwne)
          hwsne (by simp)
      constructor
      · constructor
        · intro _
          exact ⟨w, by simp, by omega⟩
        · intro _
          exact List.mem_cons_self [] _
      · intro i h hi
        cases i with
        | zero => rfl
        | succ j =>
          exfalso
          have hmem : ([] :: chunkLoop chunk_size ws [w] (w.length + 1) []).get ⟨j + 1, h⟩
              ∈ chunkLoop chunk_size ws [w] (w.length + 1) [] := by
            have : ([] :: chunkLoop chunk_size ws [w] (w.length + 1) []).get ⟨j + 1, h⟩
                = (chunkLoop chunk_size ws [w] (w.length + 1) []).get
                    ⟨j, Nat.lt_of_succ_lt_succ (by simpa using h)⟩ := rfl
            rw [this]
            exact List.get_mem _ _ _
          exact htail _ hmem hi
    · rw [if_neg hg]
      have hall : ∀ c ∈ chunkLoop chunk_size ws ([] ++ [w]) (0 + w.length + 1) [], c ≠ [] := by
        refine chunkLoop_ne_nil_of_cur chunk_size ws ([] ++ [w]) (0 + w.length + 1) []
          (by simp) ?_ hwsne (by simp)
        intro x hx
        simp only [List.nil_append, List.mem_singleton] at hx
        subst hx
        exact hwne
      constructor
      · constructor
        · intro hmem
          exact absurd rfl (hall [] hmem)
        · rintro ⟨w', hw', hlt⟩
          simp only [List.head?_cons, Option.some.injEq] at hw'
          subst hw'
          omega
      · intro i h hi
        exfalso
        exact hall _ (List.get_mem _ _ _) hi

/-- Witness for C10 at `text = "aaaa"`, `max_chunk_size = 3`: the first word
has length 4, so the chunk list starts with an empty chunk. -/
theorem c10_witness :
    (([] ∈ chunk_document_text "aaaa".toList 3) ↔
      (∃ w, (pySplit "aaaa".toList).head? = some w ∧ 3 < w.length + 1))
    ∧ ∀ (i : Nat) (h : i < (chunk_document_text "aaaa".toList 3).length),
        (chunk_document_text "aaaa".toList 3).get ⟨i, h⟩ = [] → i = 0 :=
  c10_empty_chunk "aaaa".toList 3 (by decide)

/-- C6: retrieval top-K ordering — for every non-empty corpus and every query
vector, the modelled FAISS search (`top_k = 3`, as in `ask_question`) returns
its results sorted by non-decreasing (squared) L2 distance to the query, and
the first result's distance is the minimum over the whole corpus. -/
theorem c6_retrieval_ordering (q : List Int) (items : List (Nat × List Int))
    (hne : items ≠ []) :
    List.Sorted (· ≤ ·) ((faissTopK q items 3).map (fun p => sqDist q p.2))
    ∧ ∃ r, (faissTopK q items 3).head? = some r
        ∧ ∀ p ∈ items, sqDist q r.2 ≤ sqDist q p.2 := by
  constructor
  · have hp := pairwise_sortByDist q items
    have hmap : ((sortByDist q items).map (fun p => sqDist q p.2)).Pairwise (· ≤ ·) :=
      List.Pairwise.map _ (fun a b h => h) hp
    have heq : (faissTopK q items 3).map (fun p => sqDist q p.2)
        = ((sortByDist q items).map (fun p => sqDist q p.2)).take 3 := by
      simp [faissTopK, List.map_take]
    show ((faissTopK q items 3).map (fun p => sqDist q p.2)).Pairwise (· ≤ ·)
    rw [heq]
    exact hmap.sublist (List.take_sublist _ _)
  · cases hs : sortByDist q items with
    | nil =>
      exfalso
      cases items with
      | nil => exact hne rfl
      | cons x xs =>
        exact insertByDist_ne_nil q x (sortByDist q xs) hs
    | cons r rest =>
      refine ⟨r, ?_, ?_⟩
      · simp [faissTopK, hs]
      · intro p hp
        have hmem : p ∈ sortByDist q items := (mem_sortByDist q items p).mpr hp
        rw [hs] at hmem
        rcases List.mem_cons.mp hmem with h | h
        · subst h; exact le_refl _
        · have hpw := pairwise_sortByDist q items
          rw [hs, List.pairwise_cons] at hpw
          exact hpw.1 p h

/-- Witness for C6 on a 3-item corpus with distances 25, 1, 9 from `q = [0]`. -/
theorem c6_witness :
    List.Sorted (· ≤ ·)
      ((faissTopK [0] [(1, [5]), (2, [1]), (3, [3])] 3).map (fun p => sqDist [0] p.2))
    ∧ ∃ r, (faissTopK [0] [(1, [5]), (2, [1]), (3, [3])] 3).head? = some r
        ∧ ∀ p ∈ [(1, [5]), (2, [1]), (3, [3])], sqDist [0] r.2 ≤ sqDist [0] p.2 :=
  c6_retrieval_ordering [0] [(1, [5]), (2, [1]), (3, [3])] (by decide)

/-- C7: a valid tenant key with zero documents makes `ask_question` fail with
the client-visible 404 "No documents found for the given API key." — never a
successful response and never the generic 500 used elsewhere in the handler. -/
theorem c7_empty_corpus (llm : String → String) (db : Db)
    (api_key question : String) (rand : List Int) (api_entry : ApiEntry)
    (hkey : db.apis.find? (fun a => a.api_key == api_key) = some api_entry)
    (hdocs : db.documents.filter (fun d => d.api_id == api_entry.id) = []) :
    ask_question llm db api_key question rand
      = .error ⟨404, "No documents found for the given API key."⟩ := by
  unfold ask_question
  rw [hkey]
  simp [hdocs]

/-- Witness for C7 on the one-tenant, zero-document store `db1`. -/
theorem c7_witness :
    ask_question (fun _ => "") db1 "k" "hello" []
      = .error ⟨404, "No documents found for the given API key."⟩ :=
  c7_empty_corpus (fun _ => "") db1 "k" "hello" [] ⟨1, 7, "k", none, none⟩
    (by decide) (by decide)

lemma sortByDist_pair_eq (r v : List Int) (a b : Nat) :
    sortByDist r [(a, v), (b, v)] = [(a, v), (b, v)] := by
  simp [sortByDist, insertByDist]

lemma ask_db0 (llm : String → String) (q : String) (r : List Int) :
    ask_question llm db0 "k" q r
      = .ok ⟨true, llm (askPrompt "k" q ["one", "two"] none), ["one", "two"]⟩ := by
  unfold ask_question db0
  simp [faissTopK, sortByDist_pair_eq]

/-- C2: evaluation of the code on a concrete two-document corpus — the ranked
context `ask_question` retrieves is the same for arbitrary distinct questions
and arbitrary random draws, i.e. the question is never embedded at all: the
query vector is the per-request `np.random.rand` draw (`rand`), not the
ingestion Embedder applied to the question (and the embedding lookup by
`document.api_id` hands every document the same stored vector). -/
theorem c2_code_evaluation (llm : String → String) (q1 q2 : String)
    (r1 r2 : List Int) :
    Except.map AskResponse.context (ask_question llm db0 "k" q1 r1)
      = Except.map AskResponse.context (ask_question llm db0 "k" q2 r2)
    ∧ Except.map AskResponse.context (ask_question llm db0 "k" q1 r1)
      = .ok ["one", "two"] := by
  rw [ask_db0, ask_db0]
  exact ⟨rfl, rfl⟩

/-- C8: evaluation of the code with non-empty instructions `"Be formal"` and
non-empty snippet list `["SNIPPET"]` — the prompt that `ask_question` hands
to the generator contains the instructions text (under an `Image Data`
heading, because the call site passes the arguments positionally shifted) but
contains NO retrieved snippet; the `question` slot is filled by the api key
instead of the question. -/
theorem c8_code_evaluation :
    strContains (askPrompt "key1" "q?" ["SNIPPET"] (some "Be formal")) "Be formal" = true
    ∧ strContains (askPrompt "key1" "q?" ["SNIPPET"] (some "Be formal")) "SNIPPET" = false
    ∧ strContains (askPrompt "key1" "q?" ["SNIPPET"] (some "Be formal")) "q?" = false
    ∧ strContains (askPrompt "key1" "q?" ["SNIPPET"] (some "Be formal")) "key1" = true := by
  decide

/-- The text ingested in the C3 evaluation: two 150-character words, which
`chunk_document_text` (default size 200) cuts into exactly two chunks. -/
def c3text : List Char := List.replicate 150 'a' ++ ' ' :: List.replicate 150 'b'

/-- An embedder that raises on the second chunk of `c3text`. -/
def c3encode : String → Option (List Int) := fun s =>
  if s = String.mk (List.replicate 150 'b') then none else some [0]

set_option maxRecDepth 100000 in
/-- C3: evaluation of `store_user_data` when embedding the second chunk
fails — the call raises (`False`), yet the committed store is left with the
api entry, both document rows and the first embedding row: document rows
exist with a missing embedding row, so ingestion is not all-or-nothing. -/
theorem c3_code_evaluation :
    (store_user_data c3encode ⟨[], [], []⟩ 7 "k" c3text none).2 = false
    ∧ (store_user_data c3encode ⟨[], [], []⟩ 7 "k" c3text none).1.documents.length = 2
    ∧ (store_user_data c3encode ⟨[], [], []⟩ 7 "k" c3text none).1.embeddings.length = 1
    ∧ (store_user_data c3encode ⟨[], [], []⟩ 7 "k" c3text none).1 ≠ ⟨[], [], []⟩ := by
  decide

lemma processChunk_of_disconnected (disc : Nat → Bool) (s : StreamState)
    (c : StreamChunk) (h : s.disconnected = true) :
    (processChunk disc s c).yielded = s.yielded
    ∧ (processChunk disc s c).disconnected = true
    ∧ (processChunk disc s c).fullAnswer = s.fullAnswer ++ chunkData c
    ∧ (processChunk disc s c).inputTokens = s.inputTokens + chunkPromptTokens c
    ∧ (processChunk disc s c).outputTokens = s.outputTokens + chunkCompletionTokens c := by
  cases c <;>
    simp [processChunk, guardedYield, h, chunkData, chunkPromptTokens,
      chunkCompletionTokens]

lemma processChunks_of_disconnected (disc : Nat → Bool)
    (chunks : List StreamChunk) :
    ∀ s : StreamState, s.disconnected = true →
      (processChunks disc chunks s).yielded = s.yielded
      ∧ (processChunks disc chunks s).disconnected = true
      ∧ (processChunks disc chunks s).fullAnswer = s.fullAnswer ++ answersData chunks
      ∧ (processChunks disc chunks s).inputTokens = s.inputTokens + promptTokensData chunks
      ∧ (processChunks disc chunks s).outputTokens
          = s.outputTokens + completionTokensData chunks := by
  induction chunks with
  | nil =>
    intro s h
    refine ⟨rfl, h, ?_, ?_, ?_⟩ <;>
      simp [processChunks, answersData, promptTokensData, completionTokensData]
  | cons c cs ih =>
    intro s h
    have hstep : processChunks disc (c :: cs) s
        = processChunks disc cs (processChunk disc s c) := rfl
    have hc := processChunk_of_disconnected disc s c h
    have hrec := ih (processChunk disc s c) hc.2.1
    rw [hstep]
    refine ⟨hrec.1.trans hc.1, hrec.2.1, ?_, ?_, ?_⟩
    · rw [hrec.2.2.1, hc.2.2.1]
      show s.fullAnswer ++ chunkData c ++ answersData cs
        = s.fullAnswer ++ answersData (c :: cs)
      rw [String.append_assoc]
      rfl
    · rw [hrec.2.2.2.1, hc.2.2.2.1]
      show s.inputTokens + chunkPromptTokens c + promptTokensData cs
        = s.inputTokens + promptTokensData (c :: cs)
      rw [Nat.add_assoc]
      rfl
    · rw [hrec.2.2.2.2, hc.2.2.2.2]
      show s.outputTokens + chunkCompletionTokens c + completionTokensData cs
        = s.outputTokens + completionTokensData (c :: cs)
      rw [Nat.add_assoc]
      rfl

/-- C9: once the client is detected as disconnected (the sticky flag is set),
the remaining consumption of the generator yields nothing further to the
client, yet `full_answer` still accumulates every remaining content/reasoning
fragment, and the Chat Session Record built by the `finally` block still
carries the question, the fully-computed answer and a definite status
(200 with content, 503 without). -/
theorem c9_disconnect_cancels_delivery_only (disc : Nat → Bool)
    (count_tokens : String → Nat) (question : String)
    (chunks : List StreamChunk) (s : StreamState) (h : s.disconnected = true) :
    (processChunks disc chunks s).yielded = s.yielded
    ∧ (processChunks disc chunks s).fullAnswer = s.fullAnswer ++ answersData chunks
    ∧ (processChunks disc chunks s).inputTokens = s.inputTokens + promptTokensData chunks
    ∧ (processChunks disc chunks s).outputTokens
        = s.outputTokens + completionTokensData chunks
    ∧ (mkRecord count_tokens question (processChunks disc chunks s)).question = question
    ∧ (mkRecord count_tokens question (processChunks disc chunks s)).status
        = (if (processChunks disc chunks s).fullAnswer = "" then 503 else 200)
    ∧ (mkRecord count_tokens question (processChunks disc chunks s)).answer
        = (if (processChunks disc chunks s).fullAnswer = ""
           then "Response generation was in progress when client disconnected; no primary content was generated."
           else (processChunks disc chunks s).fullAnswer) := by
  obtain ⟨hy, hd, hf, hin, hout⟩ := processChunks_of_disconnected disc chunks s h
  refine ⟨hy, hf, hin, hout, rfl, ?_, ?_⟩
  · simp [mkRecord, hd]
  · simp [mkRecord, hd]

/-- Witness for C9: an already-disconnected state, one content fragment — no
yield is produced, the answer is still accumulated and logged with status
200. -/
theorem c9_witness :
    (processChunks (fun _ => true) [StreamChunk.content "hi"] ⟨"", 0, 0, true, [], 1⟩).yielded
        = (⟨"", 0, 0, true, [], 1⟩ : StreamState).yielded
    ∧ (processChunks (fun _ => true) [StreamChunk.content "hi"] ⟨"", 0, 0, true, [], 1⟩).fullAnswer
        = (⟨"", 0, 0, true, [], 1⟩ : StreamState).fullAnswer
            ++ answersData [StreamChunk.content "hi"]
    ∧ (processChunks (fun _ => true) [StreamChunk.content "hi"] ⟨"", 0, 0, true, [], 1⟩).inputTokens
        = (⟨"", 0, 0, true, [], 1⟩ : StreamState).inputTokens
            + promptTokensData [StreamChunk.content "hi"]
    ∧ (processChunks (fun _ => true) [StreamChunk.content "hi"] ⟨"", 0, 0, true, [], 1⟩).outputTokens
        = (⟨"", 0, 0, true, [], 1⟩ : StreamState).outputTokens
            + completionTokensData [StreamChunk.content "hi"]
    ∧ (mkRecord (fun _ => 0) "q"
        (processChunks (fun _ => true) [StreamChunk.content "hi"] ⟨"", 0, 0, true, [], 1⟩)).question = "q"
    ∧ (mkRecord (fun _ => 0) "q"
        (processChunks (fun _ => true) [StreamChunk.content "hi"] ⟨"", 0, 0, true, [], 1⟩)).status
        = (if (processChunks (fun _ => true) [StreamChunk.content "hi"]
              ⟨"", 0, 0, true, [], 1⟩).fullAnswer = "" then 503 else 200)
    ∧ (mkRecord (fun _ => 0) "q"
        (processChunks (fun _ => true) [StreamChunk.content "hi"] ⟨"", 0, 0, true, [], 1⟩)).answer
        = (if (processChunks (fun _ => true) [StreamChunk.content "hi"]
              ⟨"", 0, 0, true, [], 1⟩).fullAnswer = ""
           then "Response generation was in progress when client disconnected; no primary content was generated."
           else (processChunks (fun _ => true) [StreamChunk.content "hi"]
              ⟨"", 0, 0, true, [], 1⟩).fullAnswer) :=
  c9_disconnect_cancels_delivery_only (fun _ => true) (fun _ => 0) "q"
    [StreamChunk.content "hi"] ⟨"", 0, 0, true, [], 1⟩ rfl

end LlmTool
